import Mathlib

/-!
# Travel Planner — verification of the trip/day/activity pipeline

Shallow embedding of the Travel Planner repository's core logic:

* trip creation with per-day generation (`src/app/api/trips/route.ts`, `POST`);
* the day reconciliation run on date-changing trip updates
  (`src/app/api/trips/[id]/route.ts`, `PATCH`);
* the activity day-assignment rule and partial activity updates
  (`src/app/api/activities/route.ts`, `POST` / `PATCH`);
* the currency conversion helpers (`lib/currency`);
* the budget tracker arithmetic (`src/components/BudgetTracker.tsx`);
* the export formatters and the JSON import path of the trip details page.

Calendar dates are modelled as integers counting days (midnight-truncated
`Date` values at day granularity; adding 1 moves to the next calendar day).
Timestamps are a calendar date plus minutes within the day; `setHours(0,0,0,0)`
truncation is the `date` projection.  Amounts are rationals (`Rat`), standing
for the JS numbers the code manipulates; for a JS number, "falsy" means 0
here.  Database-generated identifiers are supplied by an ambient `fresh`
function, universally quantified in the theorems.
-/

namespace TravelPlanner

/-- A full timestamp: a calendar day number plus minutes within the day.
`new Date(x).setHours(0,0,0,0)` corresponds to the `date` projection. -/
structure DateTime where
  date : Int
  mins : Int
deriving Repr, DecidableEq

/-- `Date.getTime()` of a timestamp, in minutes (the unit is irrelevant to
every comparison the code performs). -/
def DateTime.getTime (t : DateTime) : Int := t.date * 1440 + t.mins

/-- A persisted Activity row, as created by the activities API route. -/
structure Activity where
  dayId : Nat
  type : String
  title : String
  description : Option String
  location : Option String
  startTime : Option DateTime
  endTime : Option DateTime
  cost : Option Rat
  currency : Option String
  images : Option String
deriving Repr, DecidableEq

/-- A persisted Day row. -/
structure Day where
  id : Nat
  date : Int
  index : Nat
  activities : List Activity
deriving Repr, DecidableEq

/-- A persisted Trip row together with its owned days. -/
structure Trip where
  title : String
  destination : String
  startDate : Int
  endDate : Int
  budget : Option Rat
  currency : Option String
  coverImage : Option String
  days : List Day
deriving Repr, DecidableEq

/-! ## Date enumeration

Both the trip-creation route and the reconciliation loop enumerate
`while (currentDate <= end) [push currentDate; currentDate += 1 day]`. -/

/-- All calendar dates from `s` to `e` inclusive, in ascending order. -/
def enumDates (s e : Int) : List Int :=
  if s ≤ e then s :: enumDates (s + 1) e else []
termination_by (e + 1 - s).toNat
decreasing_by simp_wf; omega

/-! ## Trip creation (`src/app/api/trips/route.ts`, `POST`) -/

/-- The `daysToCreate` loop of the trip-creation route: one `{date, index}`
record per enumerated date, the index counter starting at `i`.  `fresh`
supplies the database-generated row id for each created date. -/
def buildDays (fresh : Int → Nat) : List Int → Nat → List Day
  | [], _ => []
  | d :: ds, i => ⟨fresh d, d, i, []⟩ :: buildDays fresh ds (i + 1)

/-- The days created for a new trip with range `[s, e]`. -/
def createTripDays (fresh : Int → Nat) (s e : Int) : List Day :=
  buildDays fresh (enumDates s e) 0

/-- Request body of the trip-creation route.  `none` models an absent
(or falsy, hence rejected) field. -/
structure TripBody where
  title : String
  destination : String
  startDate : Option Int
  endDate : Option Int
  budget : Option Rat
  currency : Option String
  coverImage : Option String
deriving Repr, DecidableEq

/-- The trip-creation route.  Validation is presence-only
(`if (!title || !startDate || !endDate) return 400`); a falsy provided
budget is stored as `null` (`budget ? parseFloat(budget) : null`). -/
def createTrip (fresh : Int → Nat) (b : TripBody) : Except String Trip :=
  match b.startDate, b.endDate with
  | some s, some e =>
    if b.title = "" then .error "Missing required fields"
    else .ok
      { title := b.title
        destination := b.destination
        startDate := s
        endDate := e
        budget := match b.budget with
          | some q => if q = 0 then none else some q
          | none => none
        currency := b.currency
        coverImage := b.coverImage
        days := createTripDays fresh s e }
  | _, _ => .error "Missing required fields"

/-! ## Day reconciliation (`src/app/api/trips/[id]/route.ts`, `PATCH`)

The route indexes the trip's existing days by date, deletes each day whose
date is outside the new range, then walks the new date list: an enumerated
date already present among the (pre-delete) days gets its `index` updated in
place, a missing one is created with that index. -/

/-- `existingDaysByDate[dateKey]` presence test: does the pre-update trip own
a day with this calendar date? -/
def hasDate (days : List Day) (date : Int) : Bool :=
  days.any (fun d => d.date == date)

/-- `prisma.day.update({where: day-with-this-date, data: {index: i}})`
performed on the surviving day set. -/
def updateIndexByDate (acc : List Day) (date : Int) (i : Nat) : List Day :=
  acc.map (fun d => if d.date = date then { d with index := i } else d)

/-- The create-or-reindex loop over the enumerated new dates (`for (let i = 0;
i < newDates.length; i++) ...`), acting on the day set that survived the
delete pass.  `days0` is the pre-update day list the route's
`existingDaysByDate` map was built from. -/
def reconcileLoop (days0 : List Day) (fresh : Int → Nat) :
    List Int → Nat → List Day → List Day
  | [], _, acc => acc
  | date :: rest, i, acc =>
    if hasDate days0 date then
      reconcileLoop days0 fresh rest (i + 1) (updateIndexByDate acc date i)
    else
      reconcileLoop days0 fresh rest (i + 1) (acc ++ [⟨fresh date, date, i, []⟩])

/-- The delete pass: a day survives iff its date is not strictly outside the
new `[s2, e2]` window (`if (dayDate < newStart || dayDate > newEnd) delete`). -/
def keepDays (days : List Day) (s2 e2 : Int) : List Day :=
  days.filter (fun d => decide (s2 ≤ d.date) && decide (d.date ≤ e2))

/-- The whole day-regeneration block run by `PATCH` when dates changed. -/
def reconcileDays (fresh : Int → Nat) (days : List Day) (s2 e2 : Int) : List Day :=
  reconcileLoop days fresh (enumDates s2 e2) 0 (keepDays days s2 e2)

/-- The days freshly created by the loop: one per enumerated date absent from
the pre-update day set, carrying its enumeration position as `index`. -/
def pendingNew (days0 : List Day) (fresh : Int → Nat) : List Int → Nat → List Day
  | [], _ => []
  | date :: rest, i =>
    (if hasDate days0 date then [] else [⟨fresh date, date, i, []⟩]) ++
      pendingNew days0 fresh rest (i + 1)

/-- Net effect of the reindex pass on one surviving day. -/
def applyIndex (dates : List Int) (i : Nat) (d : Day) : Day :=
  if d.date ∈ dates then { d with index := i + List.indexOf d.date dates } else d

/-- Request body of the trip `PATCH` route.  An outer `none` models an absent
field; `coverImage`'s inner `Option` models an explicit `null` (the route
distinguishes `coverImage !== undefined`). -/
structure PatchTripBody where
  title : Option String
  destination : Option String
  startDate : Option Int
  endDate : Option Int
  budget : Option Rat
  coverImage : Option (Option String)
deriving Repr, DecidableEq

/-- The trip `PATCH` route: not-found check, basic-field update (falsy title,
destination and budget are ignored via `|| undefined` / `? :`), then the day
regeneration block, run only when a provided date differs from the stored
one by `getTime()` comparison. -/
def patchTrip (fresh : Int → Nat) (tripLookup : Option Trip)
    (b : PatchTripBody) : Except String Trip :=
  match tripLookup with
  | none => .error "Trip not found"
  | some t =>
    let newStart := b.startDate.getD t.startDate
    let newEnd := b.endDate.getD t.endDate
    let datesChanged :=
      (b.startDate.isSome && decide (newStart ≠ t.startDate)) ||
      (b.endDate.isSome && decide (newEnd ≠ t.endDate))
    let t1 : Trip :=
      { t with
        title := match b.title with
          | some str => if str = "" then t.title else str
          | none => t.title
        destination := match b.destination with
          | some str => if str = "" then t.destination else str
          | none => t.destination
        startDate := newStart
        endDate := newEnd
        budget := match b.budget with
          | some q => if q = 0 then t.budget else some q
          | none => t.budget
        coverImage := match b.coverImage with
          | some c => c
          | none => t.coverImage }
    if datesChanged then
      .ok { t1 with days := reconcileDays fresh t.days newStart newEnd }
    else
      .ok t1

/-- A concrete trip-creation body with an inverted date range. -/
def tripBodyInverted : TripBody :=
  ⟨"Rome", "Italy", some 20, some 10, none, none, none⟩

/-! ## Concrete sample data used by the witnesses -/

/-- A stored activity used in witnesses (12 EUR lunch on day id 2). -/
def actLunch : Activity :=
  ⟨2, "food", "Lunch", none, none, none, none, some 12, some "EUR", none⟩

def dayA : Day := ⟨1, 10, 0, []⟩

def dayB : Day := ⟨2, 11, 1, [actLunch]⟩

def tripSample : Trip := ⟨"Rome", "Italy", 10, 11, none, none, none, [dayA, dayB]⟩

def patchBodyInverted : PatchTripBody := ⟨none, none, some 20, some 15, none, none⟩

/-! ## Activity creation and the day-assignment rule
(`src/app/api/activities/route.ts`) -/

/-- Request body of the activity `POST` route. -/
structure CreateActivityBody where
  dayId : Nat
  type : String
  title : String
  description : Option String
  location : Option String
  startTime : Option DateTime
  endTime : Option DateTime
  cost : Option Rat
  currency : Option String
  images : Option String
deriving Repr, DecidableEq

/-- The date auto-correction block of the activity `POST` route: with a
`startTime`, truncate it to its calendar date, look the target day up, and
if the dates mismatch redirect to the first day of the owning trip whose
date matches the activity's date; otherwise (or when nothing matches, or the
target day does not exist) keep the requested `dayId`. -/
def assignDay (days : List Day) (dayId : Nat)
    (startTime : Option DateTime) : Nat :=
  match startTime with
  | none => dayId
  | some ts =>
    match days.find? (fun d => d.id == dayId) with
    | none => dayId
    | some currentDay =>
      if ts.date ≠ currentDay.date then
        match days.find? (fun d => d.date == ts.date) with
        | some correctDay => correctDay.id
        | none => dayId
      else dayId

/-- The activity `POST` route: run the assignment rule, then create the row
(`cost ? parseFloat(cost) : null` stores a falsy cost as `null`).  `days` is
the owning trip's full day set (`currentDay.trip.days`). -/
def createActivity (days : List Day) (b : CreateActivityBody) : Activity :=
  { dayId := assignDay days b.dayId b.startTime
    type := b.type
    title := b.title
    description := b.description
    location := b.location
    startTime := b.startTime
    endTime := b.endTime
    cost := match b.cost with
      | some c => if c = 0 then none else some c
      | none => none
    currency := b.currency
    images := b.images }

/-- The trip's day dated 2024-03-05 (epoch day 19787). -/
def day0305 : Day := ⟨41, 19787, 0, []⟩

/-- The trip's day dated 2024-03-06 (epoch day 19788). -/
def day0306 : Day := ⟨42, 19788, 1, []⟩

/-- Creation request aimed at the 2024-03-06 day but timed
2024-03-05T10:00. -/
def bodyMar5 : CreateActivityBody :=
  ⟨42, "activity", "City tour", none, none, some ⟨19787, 600⟩, none,
    none, none, none⟩

/-- Request body of the activity `PATCH` route.  An outer `none` models an
absent (`undefined`) field, which the route skips; an inner `none` models an
explicit `null` (or falsy) provided value. -/
structure PatchActivityBody where
  dayId : Option Nat
  type : Option String
  title : Option String
  description : Option (Option String)
  location : Option (Option String)
  startTime : Option (Option DateTime)
  cost : Option (Option Rat)
  currency : Option (Option String)
  images : Option (Option String)
deriving Repr, DecidableEq

/-- The activity `PATCH` route: copies each provided field into the update
(`if (x !== undefined) updateData.x = ...`), never consulting the trip's
days; `endTime` is not among the destructured fields and is never touched.
A provided falsy cost is stored as `null` (`cost ? parseFloat(cost) : null`). -/
def updateActivity (a : Activity) (b : PatchActivityBody) : Activity :=
  { a with
    dayId := match b.dayId with
      | some v => v
      | none => a.dayId
    type := match b.type with
      | some v => v
      | none => a.type
    title := match b.title with
      | some v => v
      | none => a.title
    description := match b.description with
      | some v => v
      | none => a.description
    location := match b.location with
      | some v => v
      | none => a.location
    startTime := match b.startTime with
      | some v => v
      | none => a.startTime
    cost := match b.cost with
      | some (some c) => if c = 0 then none else some c
      | some none => none
      | none => a.cost
    currency := match b.currency with
      | some v => v
      | none => a.currency
    images := match b.images with
      | some v => v
      | none => a.images }

/-- An update body carrying only a new `startTime` (2024-03-06T09:00). -/
def bodyNewTime : PatchActivityBody :=
  ⟨none, none, none, none, none, some (some ⟨19788, 540⟩), none, none, none⟩

/-- The stored activity being updated: lives on day id 41 (dated
2024-03-05), timed 2024-03-05T10:00. -/
def actOnDay0305 : Activity :=
  ⟨41, "activity", "City tour", none, none, some ⟨19787, 600⟩, none,
    none, none, none⟩

/-! ## Currency service (`lib/currency`)

`getExchangeRates` is effectful (network + cache); its result is a rate
table keyed by currency code, passed here as an explicit argument.  When the
fetch fails the table is `getFallbackRates base`. -/

/-- `rates[code]` on the JS rate object. -/
def lookupRate (rates : List (String × Rat)) (code : String) : Option Rat :=
  (rates.find? (fun p => p.1 == code)).map Prod.snd

/-- The hard-coded fallback table anchored to EUR = 1. -/
def fallbackEUR : List (String × Rat) :=
  [("EUR", 1), ("USD", 1.08), ("GBP", 0.86), ("JPY", 162.5), ("LKR", 340),
    ("THB", 38.5), ("LAK", 22500), ("PHP", 61.5)]

/-- The fallback table converted to a requested base: every entry divided by
the base's own fallback rate (`fallbackEUR[base] || 1`). -/
def getFallbackRates (base : String) : List (String × Rat) :=
  if base = "EUR" then fallbackEUR
  else
    let euroRate := match lookupRate fallbackEUR base with
      | some r => if r = 0 then 1 else r
      | none => 1
    fallbackEUR.map (fun p => (p.1, p.2 / euroRate))

/-- `convertCurrency(amount, from, to)` evaluated against the rate table the
effectful `getExchangeRates(to)` returned.  A falsy amount returns 0; a
missing or falsy `rates[from]` returns the amount unconverted. -/
def convertCurrency (rates : List (String × Rat)) (amount : Rat)
    (fromCurrency toCurrency : String) : Rat :=
  if fromCurrency = toCurrency then amount
  else if amount = 0 then 0
  else
    match lookupRate rates fromCurrency with
    | none => amount
    | some fromRate => if fromRate = 0 then amount else amount / fromRate

/-- `calculateTotalInCurrency`: sum of the positive costs, each divided by
its currency's rate in the target-based table, added unconverted when the
rate is missing (or falsy); the currency code defaults to EUR. -/
def calculateTotalInCurrency (rates : List (String × Rat))
    (activities : List Activity) : Rat :=
  activities.foldl
    (fun total a =>
      match a.cost with
      | some c =>
        if 0 < c then
          match lookupRate rates (a.currency.getD "EUR") with
          | some r => if r = 0 then total + c else total + c / r
          | none => total + c
        else total
      | none => total)
    0

/-! ## Budget tracker (`src/components/BudgetTracker.tsx`) -/

/-- The amounts and flags the budget tracker renders. -/
structure BudgetView where
  totalSpent : Rat
  remaining : Rat
  percentageUsed : Rat
  isOverBudget : Bool
  isWarning : Bool
deriving Repr, DecidableEq

/-- The budget tracker: renders nothing without a positive budget; otherwise
`remaining = budget - totalSpent`, `percentageUsed` capped at 100, over
when remaining is negative, warning when not over and at least 80% used. -/
def budgetTracker (budget : Option Rat) (rates : List (String × Rat))
    (activities : List Activity) : Option BudgetView :=
  match budget with
  | none => none
  | some bdg =>
    if bdg ≤ 0 then none
    else
      let totalSpent := calculateTotalInCurrency rates activities
      let remaining := bdg - totalSpent
      let percentageUsed := min (totalSpent / bdg * 100) 100
      some
        { totalSpent := totalSpent
          remaining := remaining
          percentageUsed := percentageUsed
          isOverBudget := decide (remaining < 0)
          isWarning := !decide (remaining < 0) && decide (80 ≤ percentageUsed) }

/-- An activity costing 1200 in the trip's own currency. -/
def actSpend1200 : Activity :=
  ⟨1, "lodging", "Hotel", none, none, none, none, some 1200, some "EUR", none⟩

/-- An activity costing 800 in the trip's own currency. -/
def actSpend800 : Activity :=
  ⟨1, "lodging", "Hotel", none, none, none, none, some 800, some "EUR", none⟩

/-! ## Export formatters (trip details page)

The renderers build locale-formatted strings; what is modelled here is the
structured content each formatter walks: which days appear, and in which
order each day's activities are emitted.  `Array.prototype.sort` with the
comparator used by the text/PDF/Markdown/maps exporters is modelled as a
stable left-to-right insertion sort, which is what the engine's sort
computes for this comparator (untimed elements compare as greater than
everything, ties as equal-keep-left). -/

/-- The shared comparator: `if (!a.startTime) return 1; if (!b.startTime)
return -1; return timeA - timeB`. -/
def actCmp (a b : Activity) : Int :=
  match a.startTime, b.startTime with
  | none, _ => 1
  | some _, none => -1
  | some ta, some tb => ta.getTime - tb.getTime

/-- Insert `x` into the already-sorted prefix: it lands before the first
element the comparator places strictly after it. -/
def insertJS (cmp : α → α → Int) (x : α) : List α → List α
  | [] => [x]
  | y :: l => if cmp x y < 0 then x :: y :: l else y :: insertJS cmp x l

/-- `[...xs].sort(cmp)`: stable insertion of each element in order. -/
def sortJS (cmp : α → α → Int) (l : List α) : List α :=
  l.foldl (fun acc x => insertJS cmp x acc) []

/-- The day/activity traversal of the plain-text exporter: days filtered to
those with at least one activity, each with its time-sorted activities. -/
def exportTextItems (t : Trip) : List (Day × List Activity) :=
  (t.days.filter (fun d => decide (0 < d.activities.length))).map
    (fun d => (d, sortJS actCmp d.activities))

/-- The day/activity traversal of the PDF exporter (same filter and sort as
the text exporter). -/
def exportPDFItems (t : Trip) : List (Day × List Activity) :=
  (t.days.filter (fun d => decide (0 < d.activities.length))).map
    (fun d => (d, sortJS actCmp d.activities))

/-- The day/activity traversal of the Markdown exporter (same filter and
sort again). -/
def exportMarkdownItems (t : Trip) : List (Day × List Activity) :=
  (t.days.filter (fun d => decide (0 < d.activities.length))).map
    (fun d => (d, sortJS actCmp d.activities))

/-- The rows of the spreadsheet exporter: empty days are skipped
(`if (day.activities.length === 0) return`), and each remaining day's
activities are pushed in stored order — no sort. -/
def exportExcelRows (t : Trip) : List (Day × Activity) :=
  t.days.foldl
    (fun data d =>
      if d.activities.length = 0 then data
      else data ++ d.activities.map (fun a => (d, a)))
    []

/-- The VEVENTs of the calendar exporter: every activity of every day, in
stored order — no filter, no sort. -/
def exportICSEvents (t : Trip) : List (Day × Activity) :=
  t.days.foldl (fun evs d => evs ++ d.activities.map (fun a => (d, a))) []

/-- One activity of the re-importable JSON document. -/
structure ExportedActivity where
  title : String
  type : String
  description : Option String
  location : Option String
  startTime : Option DateTime
  cost : Option Rat
  currency : Option String
deriving Repr, DecidableEq

/-- One day of the re-importable JSON document. -/
structure ExportedDay where
  date : Int
  dayIndex : Nat
  activities : List ExportedActivity
deriving Repr, DecidableEq

/-- The JSON export document. -/
structure ExportDoc where
  title : String
  destination : String
  startDate : Int
  endDate : Int
  budget : Option Rat
  currency : Option String
  days : List ExportedDay
deriving Repr, DecidableEq

/-- The JSON exporter: serializes every day in stored order, with every
activity in stored order — no filter, no sort. -/
def exportJSON (t : Trip) : ExportDoc :=
  { title := t.title
    destination := t.destination
    startDate := t.startDate
    endDate := t.endDate
    budget := t.budget
    currency := t.currency
    days := t.days.map (fun d =>
      { date := d.date
        dayIndex := d.index
        activities := d.activities.map (fun a =>
          { title := a.title
            type := a.type
            description := a.description
            location := a.location
            startTime := a.startTime
            cost := a.cost
            currency := a.currency }) }) }

/-- The time key the comparator sorts by (only meaningful on activities with
a `startTime`). -/
def timedVal (a : Activity) : Int :=
  match a.startTime with
  | some ts => ts.getTime
  | none => 0

/-- A 09:00 activity. -/
def actNine : Activity :=
  ⟨7, "food", "Breakfast", none, none, some ⟨100, 540⟩, none, none, none, none⟩

/-- A 10:00 activity, stored before the 09:00 one. -/
def actTen : Activity :=
  ⟨7, "activity", "Museum", none, none, some ⟨100, 600⟩, none, none, none, none⟩

/-- A day with no activities. -/
def dayEmptyC8 : Day := ⟨6, 99, 0, []⟩

/-- A day whose stored activity order is not ascending by time. -/
def dayUnsorted : Day := ⟨7, 100, 1, [actTen, actNine]⟩

/-- A trip exercising both preprocessing steps. -/
def tripC8 : Trip := ⟨"T", "D", 99, 100, none, none, none, [dayEmptyC8, dayUnsorted]⟩

/-! ## JSON import path (`handleImportActivities`, `.json` branch)

The import flattens `days[].activities[]` into one list and POSTs each
record to the activity-creation route with `dayId = selectedDayId ||
trip.days[0]?.id`; the POST body carries title/type/description/location/
cost/currency (with `||` fallbacks) and `images: '[]'` — and no
`startTime`. -/

/-- `selectedDayId || trip.days[0]?.id` (constant across the loop; when it
is missing every iteration `continue`s). -/
def importTargetDayId (t : Trip) (selectedDayId : Option Nat) : Option Nat :=
  match selectedDayId with
  | some i => some i
  | none => t.days.head?.map Day.id

/-- The creation bodies the import POSTs, one per exported activity in
flattened order. -/
def importBodiesJSON (doc : ExportDoc) (dayId : Nat) :
    List CreateActivityBody :=
  (doc.days.flatMap (fun d => d.activities)).map (fun act =>
    { dayId := dayId
      type := if act.type = "" then "activity" else act.type
      title := if act.title = "" then "Imported Activity" else act.title
      description := some (act.description.getD "")
      location := some (act.location.getD "")
      startTime := none
      endTime := none
      cost := some (act.cost.getD 0)
      currency := some (match act.currency with
        | some c => if c = "" then "EUR" else c
        | none => "EUR")
      images := some "[]" })

/-- Persisting one created activity: append it to its day's list. -/
def applyCreate (t : Trip) (a : Activity) : Trip :=
  { t with
    days := t.days.map (fun d =>
      if d.id = a.dayId then { d with activities := d.activities ++ [a] }
      else d) }

/-- The whole import loop: each body goes through the ordinary activity
creation route against the current state. -/
def runImport (t : Trip) (selectedDayId : Option Nat) (doc : ExportDoc) :
    Trip :=
  match importTargetDayId t selectedDayId with
  | none => t
  | some did =>
    (importBodiesJSON doc did).foldl
      (fun tr b => applyCreate tr (createActivity tr.days b)) t

/-- The activity rows the import loop creates, in order: each body passed
through the creation route (whose day set is irrelevant without a
`startTime`). -/
def importedActivities (doc : ExportDoc) (did : Nat) : List Activity :=
  (importBodiesJSON doc did).map (fun b => createActivity [] b)

/-- A 30 EUR activity stored on the second day. -/
def actDinner : Activity :=
  ⟨8, "food", "Dinner", none, none, none, none, some 30, some "EUR", none⟩

/-- Source trip: two days, the activity on the second. -/
def tripC4src : Trip :=
  ⟨"P", "Q", 50, 51, none, none, none,
    [⟨7, 50, 0, []⟩, ⟨8, 51, 1, [actDinner]⟩]⟩

/-- Re-import target: the same two days, still empty. -/
def tripC4dst : Trip :=
  ⟨"P", "Q", 50, 51, none, none, none,
    [⟨7, 50, 0, []⟩, ⟨8, 51, 1, []⟩]⟩

/-! ## Theorems -/

theorem enumDates_of_le {s e : Int} (h : s ≤ e) :
    enumDates s e = s :: enumDates (s + 1) e := by
  rw [enumDates, if_pos h]

theorem enumDates_of_gt {s e : Int} (h : e < s) : enumDates s e = [] := by
  rw [enumDates, if_neg (by omega)]

theorem mem_enumDates {s e x : Int} : x ∈ enumDates s e ↔ s ≤ x ∧ x ≤ e := by
  induction s, e using enumDates.induct with
  | case1 s e h ih =>
    rw [enumDates_of_le h, List.mem_cons, ih]
    omega
  | case2 s e h =>
    rw [enumDates_of_gt (by omega)]
    simp only [List.not_mem_nil, false_iff]
    omega

theorem enumDates_nodup (s e : Int) : (enumDates s e).Nodup := by
  induction s, e using enumDates.induct with
  | case1 s e h ih =>
    rw [enumDates_of_le h]
    exact List.nodup_cons.mpr ⟨fun hm => by have := mem_enumDates.mp hm; omega, ih⟩
  | case2 s e h =>
    rw [enumDates_of_gt (by omega)]
    exact List.nodup_nil

theorem enumDates_length (s e : Int) :
    (enumDates s e).length = (e + 1 - s).toNat := by
  induction s, e using enumDates.induct with
  | case1 s e h ih =>
    rw [enumDates_of_le h, List.length_cons, ih]
    omega
  | case2 s e h =>
    rw [enumDates_of_gt (by omega), List.length_nil]
    omega

theorem enumDates_indexOf {s e x : Int} (hs : s ≤ x) (he : x ≤ e) :
    List.indexOf x (enumDates s e) = (x - s).toNat := by
  induction s, e using enumDates.induct with
  | case1 s e h ih =>
    rw [enumDates_of_le h]
    by_cases hx : s = x
    · subst hx
      rw [List.indexOf_cons_self]
      omega
    · rw [List.indexOf_cons_ne _ (by omega), ih (by omega) he]
      omega
  | case2 s e h => omega

theorem enumDates_getElem {s e : Int} (k : Nat) (hk : k < (enumDates s e).length) :
    (enumDates s e)[k]? = some (s + k) := by
  induction s, e using enumDates.induct generalizing k with
  | case1 s e h ih =>
    rw [enumDates_of_le h] at hk ⊢
    match k with
    | 0 => simp
    | Nat.succ j =>
      rw [List.getElem?_cons_succ, ih j (by simpa using hk)]
      congr 1
      omega
  | case2 s e h =>
    rw [enumDates_of_gt (by omega)] at hk
    exact absurd hk (by simp)

theorem buildDays_length (fresh : Int → Nat) (ds : List Int) (i : Nat) :
    (buildDays fresh ds i).length = ds.length := by
  induction ds generalizing i with
  | nil => rfl
  | cons d ds ih => simp [buildDays, ih]

theorem buildDays_getElem (fresh : Int → Nat) (ds : List Int) (i : Nat)
    (k : Nat) (d : Int) (hd : ds[k]? = some d) :
    (buildDays fresh ds i)[k]? = some ⟨fresh d, d, i + k, []⟩ := by
  induction ds generalizing i k with
  | nil => exact absurd hd (by simp)
  | cons a ds ih =>
    match k with
    | 0 =>
      simp only [List.getElem?_cons_zero, Option.some.injEq] at hd
      subst hd
      simp [buildDays]
    | Nat.succ j =>
      simp only [List.getElem?_cons_succ] at hd
      simp only [buildDays, List.getElem?_cons_succ]
      rw [ih (i + 1) j hd]
      simp only [Option.some.injEq, Day.mk.injEq, and_true, true_and]
      omega

theorem hasDate_of_mem {days : List Day} {d : Day} (h : d ∈ days) :
    hasDate days d.date = true :=
  List.any_eq_true.mpr ⟨d, h, beq_self_eq_true d.date⟩

theorem hasDate_iff {days : List Day} {x : Int} :
    hasDate days x = true ↔ ∃ d ∈ days, d.date = x := by
  simp [hasDate]

theorem applyIndex_nil (i : Nat) (d : Day) : applyIndex [] i d = d := by
  simp [applyIndex]

theorem applyIndex_cons_of_ne {date : Int} {rest : List Int} {d : Day}
    (i : Nat) (hne : d.date ≠ date) :
    applyIndex rest (i + 1) d = applyIndex (date :: rest) i d := by
  rw [applyIndex, applyIndex]
  by_cases hrest : d.date ∈ rest
  · rw [if_pos hrest, if_pos (List.mem_cons_of_mem _ hrest),
      List.indexOf_cons_ne _ (fun h => hne h.symm)]
    simp only [Day.mk.injEq, and_true, true_and]
    omega
  · rw [if_neg hrest, if_neg (by
      intro h
      rcases List.mem_cons.mp h with h1 | h2
      · exact hne h1
      · exact hrest h2)]

theorem applyIndex_cons_of_eq {date : Int} {rest : List Int} {d : Day}
    (i : Nat) (hnotin : date ∉ rest) (hde : d.date = date) :
    applyIndex rest (i + 1) { d with index := i } =
      applyIndex (date :: rest) i d := by
  rw [applyIndex, applyIndex]
  rw [if_neg (by simpa [hde] using hnotin),
    if_pos (by rw [hde]; exact List.mem_cons_self date rest)]
  rw [hde, List.indexOf_cons_self]
  simp

/-- Closed form of the create-or-reindex loop: every accumulated day gets the
index of its date within the enumerated list, and the missing dates are
appended as new days.  Requires the enumerated dates to be distinct and every
accumulated day with a still-pending date to be visible to the
`existingDaysByDate` map. -/
theorem reconcileLoop_eq (days0 : List Day) (fresh : Int → Nat)
    (dates : List Int) (hnd : dates.Nodup) :
    ∀ (i : Nat) (acc : List Day),
      (∀ d ∈ acc, d.date ∈ dates → hasDate days0 d.date = true) →
      reconcileLoop days0 fresh dates i acc =
        acc.map (applyIndex dates i) ++ pendingNew days0 fresh dates i := by
  induction dates with
  | nil =>
    intro i acc _
    simp only [reconcileLoop, pendingNew, List.append_nil]
    rw [List.map_congr_left (fun d _ => applyIndex_nil i d)]
    simp
  | cons date rest ih =>
    intro i acc hsub
    have hdate_notin : date ∉ rest := (List.nodup_cons.mp hnd).1
    have hrest_nd : rest.Nodup := (List.nodup_cons.mp hnd).2
    by_cases hpresent : hasDate days0 date = true
    · have hsub2 : ∀ d ∈ updateIndexByDate acc date i, d.date ∈ rest →
          hasDate days0 d.date = true := by
        intro d hd hmem
        obtain ⟨d0, hd0, hde⟩ := List.mem_map.mp hd
        have hdates : d.date = d0.date := by
          by_cases hcase : d0.date = date
          · rw [← hde]; simp [hcase]
          · rw [← hde]; simp [hcase]
        rw [hdates]
        refine hsub d0 hd0 ?_
        rw [← hdates]
        exact List.mem_cons_of_mem _ hmem
      rw [show reconcileLoop days0 fresh (date :: rest) i acc =
          reconcileLoop days0 fresh rest (i + 1) (updateIndexByDate acc date i) by
        simp only [reconcileLoop, if_pos hpresent]]
      rw [ih hrest_nd (i + 1) _ hsub2]
      rw [show pendingNew days0 fresh (date :: rest) i =
          pendingNew days0 fresh rest (i + 1) by
        simp only [pendingNew, if_pos hpresent, List.nil_append]]
      congr 1
      rw [updateIndexByDate, List.map_map]
      refine List.map_congr_left fun d _ => ?_
      by_cases hcase : d.date = date
      · simp only [Function.comp_apply, if_pos hcase]
        exact applyIndex_cons_of_eq i hdate_notin hcase
      · simp only [Function.comp_apply, if_neg hcase]
        exact applyIndex_cons_of_ne i hcase
    · have hsub2 : ∀ d ∈ acc ++ [(⟨fresh date, date, i, []⟩ : Day)],
          d.date ∈ rest → hasDate days0 d.date = true := by
        intro d hd hmem
        rcases List.mem_append.mp hd with hacc | hnew
        · exact hsub d hacc (List.mem_cons_of_mem _ hmem)
        · have : d = ⟨fresh date, date, i, []⟩ := by simpa using hnew
          subst this
          exact absurd hmem hdate_notin
      rw [show reconcileLoop days0 fresh (date :: rest) i acc =
          reconcileLoop days0 fresh rest (i + 1)
            (acc ++ [⟨fresh date, date, i, []⟩]) by
        simp only [reconcileLoop, if_neg hpresent]]
      rw [ih hrest_nd (i + 1) _ hsub2]
      rw [show pendingNew days0 fresh (date :: rest) i =
          ⟨fresh date, date, i, []⟩ :: pendingNew days0 fresh rest (i + 1) by
        simp only [pendingNew, if_neg hpresent, List.singleton_append]]
      rw [List.map_append, List.append_assoc]
      congr 1
      · refine List.map_congr_left fun d hd => ?_
        have hne : d.date ≠ date := by
          intro heq
          have hm : d.date ∈ date :: rest := by
            rw [heq]; exact List.mem_cons_self date rest
          have h2 := hsub d hd hm
          rw [heq] at h2
          exact hpresent h2
        exact applyIndex_cons_of_ne i hne
      · simp only [List.map_cons, List.map_nil, List.singleton_append]
        rw [show applyIndex rest (i + 1) ⟨fresh date, date, i, []⟩ =
            ⟨fresh date, date, i, []⟩ by rw [applyIndex, if_neg hdate_notin]]

theorem pendingNew_map_date (days0 : List Day) (fresh : Int → Nat) :
    ∀ (dates : List Int) (i : Nat),
      (pendingNew days0 fresh dates i).map Day.date =
        dates.filter (fun x => !hasDate days0 x) := by
  intro dates
  induction dates with
  | nil => intro i; rfl
  | cons date rest ih =>
    intro i
    by_cases hpresent : hasDate days0 date = true
    · rw [show pendingNew days0 fresh (date :: rest) i =
          pendingNew days0 fresh rest (i + 1) by
        simp only [pendingNew, if_pos hpresent, List.nil_append]]
      simp [List.filter_cons, hpresent, ih]
    · have hfalse : hasDate days0 date = false := by
        revert hpresent; cases hasDate days0 date <;> simp
      rw [show pendingNew days0 fresh (date :: rest) i =
          ⟨fresh date, date, i, []⟩ :: pendingNew days0 fresh rest (i + 1) by
        simp only [pendingNew, if_neg hpresent, List.singleton_append]]
      simp [List.filter_cons, hfalse, ih]

theorem pendingNew_mem (days0 : List Day) (fresh : Int → Nat) :
    ∀ (dates : List Int), dates.Nodup →
      ∀ (i : Nat), ∀ d ∈ pendingNew days0 fresh dates i,
        d.activities = [] ∧ hasDate days0 d.date = false ∧ d.date ∈ dates ∧
          d.index = i + List.indexOf d.date dates := by
  intro dates
  induction dates with
  | nil => intro _ i d hd; exact absurd hd (by simp [pendingNew])
  | cons date rest ih =>
    intro hnd i d hd
    have hdate_notin : date ∉ rest := (List.nodup_cons.mp hnd).1
    have hrest_nd : rest.Nodup := (List.nodup_cons.mp hnd).2
    by_cases hpresent : hasDate days0 date = true
    · rw [show pendingNew days0 fresh (date :: rest) i =
          pendingNew days0 fresh rest (i + 1) by
        simp only [pendingNew, if_pos hpresent, List.nil_append]] at hd
      obtain ⟨ha, hf, hm, hi⟩ := ih hrest_nd (i + 1) d hd
      have hne : d.date ≠ date := fun heq => hdate_notin (heq ▸ hm)
      refine ⟨ha, hf, List.mem_cons_of_mem _ hm, ?_⟩
      rw [List.indexOf_cons_ne _ (fun h => hne h.symm)]
      omega
    · rw [show pendingNew days0 fresh (date :: rest) i =
          ⟨fresh date, date, i, []⟩ :: pendingNew days0 fresh rest (i + 1) by
        simp only [pendingNew, if_neg hpresent, List.singleton_append]] at hd
      rcases List.mem_cons.mp hd with hnew | hrest
      · subst hnew
        refine ⟨rfl, by revert hpresent; cases hasDate days0 date <;> simp,
          List.mem_cons_self date rest, ?_⟩
        simp [List.indexOf_cons_self]
      · obtain ⟨ha, hf, hm, hi⟩ := ih hrest_nd (i + 1) d hrest
        have hne : d.date ≠ date := fun heq => hdate_notin (heq ▸ hm)
        refine ⟨ha, hf, List.mem_cons_of_mem _ hm, ?_⟩
        rw [List.indexOf_cons_ne _ (fun h => hne h.symm)]
        omega

theorem pendingNew_nil (days0 : List Day) (fresh : Int → Nat) :
    ∀ (dates : List Int), (∀ x ∈ dates, hasDate days0 x = true) →
      ∀ (i : Nat), pendingNew days0 fresh dates i = [] := by
  intro dates
  induction dates with
  | nil => intro _ i; rfl
  | cons date rest ih =>
    intro h i
    rw [show pendingNew days0 fresh (date :: rest) i =
        pendingNew days0 fresh rest (i + 1) by
      simp only [pendingNew, if_pos (h date (List.mem_cons_self date rest)),
        List.nil_append]]
    exact ih (fun x hx => h x (List.mem_cons_of_mem _ hx)) (i + 1)

theorem applyIndex_fields (dates : List Int) (i : Nat) (d : Day) :
    (applyIndex dates i d).id = d.id ∧ (applyIndex dates i d).date = d.date ∧
      (applyIndex dates i d).activities = d.activities := by
  rw [applyIndex]
  split <;> exact ⟨rfl, rfl, rfl⟩

theorem reconcileDays_closed_form (fresh : Int → Nat) (days : List Day)
    (s2 e2 : Int) :
    reconcileDays fresh days s2 e2 =
      (keepDays days s2 e2).map (applyIndex (enumDates s2 e2) 0) ++
        pendingNew days fresh (enumDates s2 e2) 0 := by
  rw [reconcileDays]
  exact reconcileLoop_eq days fresh _ (enumDates_nodup s2 e2) 0 _
    (fun d hd _ => hasDate_of_mem (List.mem_of_mem_filter hd))

theorem mem_keepDays {days : List Day} {s2 e2 : Int} {d : Day} :
    d ∈ keepDays days s2 e2 ↔ d ∈ days ∧ s2 ≤ d.date ∧ d.date ≤ e2 := by
  simp [keepDays, List.mem_filter]

/-- Day Reconciliation Engine, full specification.  Under the data-model
invariant that a trip's days have pairwise-distinct dates and all lie in the
old range `[s, e]`, updating the range to `[s2, e2]`:
(1) preserves, by date and with identity and activities intact, every day
whose date lies in the intersection of the two ranges; (2) leaves no day
dated outside `[s2, e2]`; (3) the resulting dates are exactly the calendar
dates of `[s2, e2]`, each once; (4) days at dates absent before the update
are created with no activities; (5) each resulting day's `index` is its
0-based position in ascending date order; and (6) reconciling again with the
same range changes nothing. -/
theorem reconcileDays_spec (fresh : Int → Nat) (days : List Day)
    (s e s2 e2 : Int)
    (hnodup : (days.map Day.date).Nodup)
    (hrange : ∀ d ∈ days, s ≤ d.date ∧ d.date ≤ e) :
    (∀ d ∈ days, max s s2 ≤ d.date → d.date ≤ min e e2 →
      ∃ d2 ∈ reconcileDays fresh days s2 e2,
        d2.id = d.id ∧ d2.date = d.date ∧ d2.activities = d.activities) ∧
    (∀ d2 ∈ reconcileDays fresh days s2 e2, s2 ≤ d2.date ∧ d2.date ≤ e2) ∧
    List.Perm ((reconcileDays fresh days s2 e2).map Day.date)
      (enumDates s2 e2) ∧
    (∀ d2 ∈ reconcileDays fresh days s2 e2,
      (∀ d ∈ days, d.date ≠ d2.date) → d2.activities = []) ∧
    (∀ d2 ∈ reconcileDays fresh days s2 e2,
      d2.index = (d2.date - s2).toNat) ∧
    reconcileDays fresh (reconcileDays fresh days s2 e2) s2 e2 =
      reconcileDays fresh days s2 e2 := by
  have hclosed := reconcileDays_closed_form fresh days s2 e2
  -- (2): everything in the result is dated inside the new range
  have hpart2 : ∀ d2 ∈ reconcileDays fresh days s2 e2,
      s2 ≤ d2.date ∧ d2.date ≤ e2 := by
    intro d2 hd2
    rw [hclosed] at hd2
    rcases List.mem_append.mp hd2 with hk | hp
    · obtain ⟨d, hdk, hde⟩ := List.mem_map.mp hk
      have hb := (mem_keepDays.mp hdk).2
      have hdd := (applyIndex_fields (enumDates s2 e2) 0 d).2.1
      rw [← hde]
      rw [hdd]
      exact hb
    · obtain ⟨_, _, hm, _⟩ :=
        pendingNew_mem days fresh _ (enumDates_nodup s2 e2) 0 d2 hp
      exact mem_enumDates.mp hm
  -- (5): index = position in ascending date order
  have hpart5 : ∀ d2 ∈ reconcileDays fresh days s2 e2,
      d2.index = (d2.date - s2).toNat := by
    intro d2 hd2
    have hb := hpart2 d2 hd2
    rw [hclosed] at hd2
    rcases List.mem_append.mp hd2 with hk | hp
    · obtain ⟨d, hdk, hde⟩ := List.mem_map.mp hk
      have hbk := (mem_keepDays.mp hdk).2
      have hmem : d.date ∈ enumDates s2 e2 := mem_enumDates.mpr hbk
      rw [← hde]
      rw [applyIndex, if_pos hmem]
      simp only [Nat.zero_add]
      exact enumDates_indexOf hbk.1 hbk.2
    · obtain ⟨_, _, hm, hi⟩ :=
        pendingNew_mem days fresh _ (enumDates_nodup s2 e2) 0 d2 hp
      rw [hi, Nat.zero_add]
      exact enumDates_indexOf hb.1 hb.2
  -- (3): resulting dates are exactly the new range
  have hpart3 : List.Perm ((reconcileDays fresh days s2 e2).map Day.date)
      (enumDates s2 e2) := by
    rw [hclosed, List.map_append, List.map_map]
    rw [show List.map (Day.date ∘ applyIndex (enumDates s2 e2) 0)
          (keepDays days s2 e2) = List.map Day.date (keepDays days s2 e2) from
      List.map_congr_left (fun d _ => (applyIndex_fields (enumDates s2 e2) 0 d).2.1)]
    rw [pendingNew_map_date]
    have hnd1 : ((keepDays days s2 e2).map Day.date).Nodup :=
      List.Nodup.sublist (List.Sublist.map Day.date (List.filter_sublist days))
        hnodup
    have hnd2 : ((enumDates s2 e2).filter (fun x => hasDate days x)).Nodup :=
      List.Nodup.filter _ (enumDates_nodup s2 e2)
    have hperm1 : List.Perm ((keepDays days s2 e2).map Day.date)
        ((enumDates s2 e2).filter (fun x => hasDate days x)) := by
      rw [List.perm_ext_iff_of_nodup hnd1 hnd2]
      intro x
      constructor
      · intro hx
        obtain ⟨d, hdk, hde⟩ := List.mem_map.mp hx
        obtain ⟨hdd, hb⟩ := mem_keepDays.mp hdk
        refine List.mem_filter.mpr ⟨mem_enumDates.mpr (hde ▸ hb), ?_⟩
        exact hde ▸ hasDate_of_mem hdd
      · intro hx
        obtain ⟨hmem, hhas⟩ := List.mem_filter.mp hx
        obtain ⟨d, hdd, hde⟩ := hasDate_iff.mp hhas
        refine List.mem_map.mpr ⟨d, ?_, hde⟩
        exact mem_keepDays.mpr ⟨hdd, hde ▸ mem_enumDates.mp hmem⟩
    exact (hperm1.append_right
        ((enumDates s2 e2).filter (fun x => !hasDate days x))).trans
      (List.filter_append_perm (fun x => hasDate days x) (enumDates s2 e2))
  refine ⟨?_, hpart2, hpart3, ?_, hpart5, ?_⟩
  -- (1): preservation on the intersection of the two ranges
  · intro d hd h1 h2
    have hs2 : s2 ≤ d.date := le_trans (le_max_right s s2) h1
    have he2 : d.date ≤ e2 := le_trans h2 (min_le_right e e2)
    have hdk : d ∈ keepDays days s2 e2 := mem_keepDays.mpr ⟨hd, hs2, he2⟩
    refine ⟨applyIndex (enumDates s2 e2) 0 d, ?_, ?_⟩
    · rw [hclosed]
      exact List.mem_append_left _ (List.mem_map_of_mem _ hdk)
    · obtain ⟨ha, hb, hc⟩ := applyIndex_fields (enumDates s2 e2) 0 d
      exact ⟨ha, hb, hc⟩
  -- (4): created days carry no activities
  · intro d2 hd2 hmiss
    rw [hclosed] at hd2
    rcases List.mem_append.mp hd2 with hk | hp
    · obtain ⟨d, hdk, hde⟩ := List.mem_map.mp hk
      have hdd := (mem_keepDays.mp hdk).1
      have : d.date = d2.date := by
        rw [← hde]; exact ((applyIndex_fields (enumDates s2 e2) 0 d).2.1).symm
      exact absurd this (hmiss d hdd)
    · exact (pendingNew_mem days fresh _ (enumDates_nodup s2 e2) 0 d2 hp).1
  -- (6): idempotence
  · set R := reconcileDays fresh days s2 e2 with hR
    have hkeep : keepDays R s2 e2 = R := by
      rw [keepDays]
      refine List.filter_eq_self.mpr fun d hd => ?_
      have hb := hpart2 d hd
      simp [hb.1, hb.2]
    have hmemdate : ∀ x ∈ enumDates s2 e2, hasDate R x = true := by
      intro x hx
      have : x ∈ R.map Day.date := hpart3.symm.subset hx
      obtain ⟨d, hdd, hde⟩ := List.mem_map.mp this
      exact hasDate_iff.mpr ⟨d, hdd, hde⟩
    rw [show reconcileDays fresh R s2 e2 =
        R.map (applyIndex (enumDates s2 e2) 0) ++
          pendingNew R fresh (enumDates s2 e2) 0 by
      rw [reconcileDays, hkeep]
      exact reconcileLoop_eq R fresh _ (enumDates_nodup s2 e2) 0 R
        (fun d hd _ => hasDate_of_mem hd)]
    rw [pendingNew_nil R fresh _ hmemdate 0, List.append_nil]
    have hid : ∀ d ∈ R, applyIndex (enumDates s2 e2) 0 d = d := by
      intro d hd
      have hb := hpart2 d hd
      have hmem : d.date ∈ enumDates s2 e2 := mem_enumDates.mpr hb
      rw [applyIndex, if_pos hmem, Nat.zero_add,
        enumDates_indexOf hb.1 hb.2, ← hpart5 d hd]
    rw [List.map_congr_left hid]
    simp

theorem keepDays_of_gt {days : List Day} {s2 e2 : Int} (hgt : e2 < s2) :
    keepDays days s2 e2 = [] := by
  rw [keepDays]
  induction days with
  | nil => rfl
  | cons d ds ih =>
    rw [List.filter_cons, ih]
    have : (decide (s2 ≤ d.date) && decide (d.date ≤ e2)) = false := by
      by_cases h1 : s2 ≤ d.date
      · simp [h1, show ¬d.date ≤ e2 by omega]
      · simp [h1]
    rw [this]
    simp

/-- An inverted new range enumerates no dates and keeps no existing day. -/
theorem reconcileDays_of_gt (fresh : Int → Nat) (days : List Day)
    {s2 e2 : Int} (hgt : e2 < s2) :
    reconcileDays fresh days s2 e2 = [] := by
  rw [reconcileDays, enumDates_of_gt hgt, keepDays_of_gt hgt]
  rfl

/-! ## Claim theorems: trip creation and range updates -/

/-- C2: creating a Trip over `[s, e]` with `s ≤ e` produces exactly
`(e - s) + 1` days, the `k`-th created day having date `s + k` and index `k`
(so indices are `0..n-1` in ascending date order, one day per calendar date
of the inclusive range). -/
theorem createTripDays_spec (fresh : Int → Nat) (s e : Int) (h : s ≤ e) :
    (createTripDays fresh s e).length = (e - s).toNat + 1 ∧
    ∀ k : Nat, k < (createTripDays fresh s e).length →
      (createTripDays fresh s e)[k]? =
        some ⟨fresh (s + k), s + k, k, []⟩ := by
  constructor
  · rw [createTripDays, buildDays_length, enumDates_length]
    omega
  · intro k hk
    rw [createTripDays] at hk ⊢
    rw [buildDays_length] at hk
    have hget := buildDays_getElem fresh (enumDates s e) 0 k (s + k)
      (enumDates_getElem k hk)
    rw [hget]
    simp

/-- C2 witness: a concrete 3-day trip. -/
theorem createTripDays_spec_witness :
    (10 : Int) ≤ 12 ∧
    ((createTripDays Int.toNat 10 12).length = ((12 : Int) - 10).toNat + 1 ∧
    ∀ k : Nat, k < (createTripDays Int.toNat 10 12).length →
      (createTripDays Int.toNat 10 12)[k]? =
        some ⟨Int.toNat (10 + k), 10 + k, k, []⟩) :=
  ⟨by decide, createTripDays_spec Int.toNat 10 12 (by decide)⟩

/-- C10: creating a Trip whose `startDate` is after its `endDate` is accepted
by the presence-only validation and yields a trip owning zero days; no error
is returned for the inverted range. -/
theorem createTrip_inverted_range (fresh : Int → Nat) (b : TripBody)
    (s e : Int) (htitle : b.title ≠ "") (hs : b.startDate = some s)
    (he : b.endDate = some e) (hgt : e < s) :
    ∃ t, createTrip fresh b = .ok t ∧ t.days = [] := by
  rcases b with ⟨bt, bd, bsd, bed, bb, bc, bci⟩
  simp only at hs he htitle
  subst hs he
  rw [show createTrip fresh ⟨bt, bd, some s, some e, bb, bc, bci⟩ =
      .ok { title := bt, destination := bd, startDate := s, endDate := e,
            budget := match bb with
              | some q => if q = 0 then none else some q
              | none => none,
            currency := bc, coverImage := bci,
            days := createTripDays fresh s e } by
    simp only [createTrip, if_neg htitle]]
  refine ⟨_, rfl, ?_⟩
  simp only [createTripDays, enumDates_of_gt hgt, buildDays]

/-- C10 witness: the inverted-range body is accepted and yields zero days. -/
theorem createTrip_inverted_range_witness :
    tripBodyInverted.title ≠ "" ∧ tripBodyInverted.startDate = some 20 ∧
    tripBodyInverted.endDate = some 10 ∧ (10 : Int) < 20 ∧
    ∃ t, createTrip (fun _ => 0) tripBodyInverted = .ok t ∧ t.days = [] :=
  ⟨by decide, rfl, rfl, by decide,
    createTrip_inverted_range (fun _ => 0) tripBodyInverted 20 10
      (by decide) rfl rfl (by decide)⟩

/-- C6: a trip date-range update whose new `startDate` is after its new
`endDate` enumerates no dates, deletes all of the trip's existing days, and
is accepted silently (the route returns success, with no validation error on
the ordering). -/
theorem patchTrip_inverted_range (fresh : Int → Nat) (t : Trip)
    (b : PatchTripBody) (s2 e2 : Int)
    (hs : b.startDate = some s2) (he : b.endDate = some e2)
    (hgt : e2 < s2) (hch : s2 ≠ t.startDate ∨ e2 ≠ t.endDate) :
    ∃ t2, patchTrip fresh (some t) b = .ok t2 ∧ t2.days = [] ∧
      enumDates s2 e2 = [] := by
  rcases b with ⟨bt, bd, bsd, bed, bb, bci⟩
  simp only at hs he
  subst hs he
  have hcond : ((some s2).isSome && decide (s2 ≠ t.startDate) ||
      (some e2).isSome && decide (e2 ≠ t.endDate)) = true := by
    rcases hch with h | h <;> simp [h]
  simp only [patchTrip, Option.getD_some]
  rw [hcond]
  exact ⟨_, rfl, reconcileDays_of_gt fresh t.days hgt,
    enumDates_of_gt hgt⟩

/-- C1 witness: a two-day trip `[10, 11]` moved to `[11, 12]`; the day dated
11 (with its lunch) survives, day 10 is deleted, day 12 is created. -/
theorem reconcileDays_spec_witness :
    (([dayA, dayB].map Day.date).Nodup ∧
      (∀ d ∈ [dayA, dayB], (10 : Int) ≤ d.date ∧ d.date ≤ 11)) ∧
    ((∀ d ∈ [dayA, dayB], max (10 : Int) 11 ≤ d.date →
        d.date ≤ min (11 : Int) 12 →
      ∃ d2 ∈ reconcileDays Int.toNat [dayA, dayB] 11 12,
        d2.id = d.id ∧ d2.date = d.date ∧ d2.activities = d.activities) ∧
    (∀ d2 ∈ reconcileDays Int.toNat [dayA, dayB] 11 12,
      (11 : Int) ≤ d2.date ∧ d2.date ≤ 12) ∧
    List.Perm ((reconcileDays Int.toNat [dayA, dayB] 11 12).map Day.date)
      (enumDates 11 12) ∧
    (∀ d2 ∈ reconcileDays Int.toNat [dayA, dayB] 11 12,
      (∀ d ∈ [dayA, dayB], d.date ≠ d2.date) → d2.activities = []) ∧
    (∀ d2 ∈ reconcileDays Int.toNat [dayA, dayB] 11 12,
      d2.index = (d2.date - 11).toNat) ∧
    reconcileDays Int.toNat (reconcileDays Int.toNat [dayA, dayB] 11 12) 11 12 =
      reconcileDays Int.toNat [dayA, dayB] 11 12) :=
  ⟨⟨by decide, by decide⟩,
    reconcileDays_spec Int.toNat [dayA, dayB] 10 11 11 12
      (by decide) (by decide)⟩

/-- C6 witness: patching the sample trip to the inverted range `[20, 15]`
succeeds and leaves zero days. -/
theorem patchTrip_inverted_range_witness :
    patchBodyInverted.startDate = some 20 ∧
    patchBodyInverted.endDate = some 15 ∧ (15 : Int) < 20 ∧
    ((20 : Int) ≠ tripSample.startDate ∨ (15 : Int) ≠ tripSample.endDate) ∧
    ∃ t2, patchTrip (fun _ => 0) (some tripSample) patchBodyInverted =
        .ok t2 ∧ t2.days = [] ∧ enumDates 20 15 = [] :=
  ⟨rfl, rfl, by decide, Or.inl (by decide),
    patchTrip_inverted_range (fun _ => 0) tripSample patchBodyInverted 20 15
      rfl rfl (by decide) (Or.inl (by decide))⟩

/-- C3: creating an activity whose `startTime` date differs from the target
day's date attaches it to the trip's day carrying the activity's date when
one exists (unique by the distinct-dates invariant), and falls back to the
originally requested day unchanged when none does. -/
theorem createActivity_assignment (days : List Day) (b : CreateActivityBody)
    (ts : DateTime) (cur : Day)
    (hst : b.startTime = some ts)
    (hcur : days.find? (fun d => d.id == b.dayId) = some cur)
    (hne : ts.date ≠ cur.date) :
    (∀ target ∈ days, target.date = ts.date → (days.map Day.date).Nodup →
      (createActivity days b).dayId = target.id) ∧
    ((∀ d ∈ days, d.date ≠ ts.date) →
      (createActivity days b).dayId = b.dayId) := by
  have hbase : (createActivity days b).dayId =
      match days.find? (fun d => d.date == ts.date) with
      | some correctDay => correctDay.id
      | none => b.dayId := by
    show assignDay days b.dayId b.startTime = _
    rw [hst, assignDay, hcur]
    simp only [if_pos hne]
  constructor
  · intro target htarget hdate hnodup
    rcases hfind : days.find? (fun d => d.date == ts.date) with _ | d0
    · have := List.find?_eq_none.mp hfind target htarget
      simp [hdate] at this
    · rw [hbase, hfind]
      have hmem : d0 ∈ days := List.mem_of_find?_eq_some hfind
      have hd0 : d0.date = ts.date := by
        have hpred := List.find?_some hfind
        simpa using hpred
      have : d0 = target :=
        List.inj_on_of_nodup_map hnodup hmem htarget (by rw [hd0, hdate])
      rw [this]
  · intro hmiss
    rw [hbase]
    rw [List.find?_eq_none.mpr fun d hd => by simpa using hmiss d hd]

/-- C3 witness: the spec's concrete instance — the activity lands on the
2024-03-05 day instead of the requested 2024-03-06 one. -/
theorem createActivity_assignment_witness :
    bodyMar5.startTime = some ⟨19787, 600⟩ ∧
    [day0305, day0306].find? (fun d => d.id == bodyMar5.dayId) =
      some day0306 ∧
    (⟨19787, 600⟩ : DateTime).date ≠ day0306.date ∧
    day0305 ∈ [day0305, day0306] ∧ day0305.date = (19787 : Int) ∧
    ([day0305, day0306].map Day.date).Nodup ∧
    (createActivity [day0305, day0306] bodyMar5).dayId = day0305.id :=
  ⟨rfl, by decide, by decide, by decide, rfl, by decide,
    (createActivity_assignment [day0305, day0306] bodyMar5 ⟨19787, 600⟩
        day0306 rfl (by decide) (by decide)).1
      day0305 (by decide) rfl (by decide)⟩

/-- C7: an activity update that supplies a new `startTime` but no `dayId`
leaves `dayId` unchanged — the assignment rule does not run on the update
path (the route never reads the trip's days) — even when the new
`startTime`'s calendar date no longer matches the assigned day's date; and
every field the update does not supply is unchanged. -/
theorem updateActivity_no_reassign (a : Activity) (b : PatchActivityBody)
    (days : List Day) (d : Day) (ts : DateTime)
    (hnoday : b.dayId = none)
    (hst : b.startTime = some (some ts))
    (hd : d ∈ days) (hid : d.id = a.dayId) (hmismatch : ts.date ≠ d.date) :
    (updateActivity a b).dayId = a.dayId ∧
    (updateActivity a b).startTime = some ts ∧
    (updateActivity a b).endTime = a.endTime ∧
    (b.type = none → (updateActivity a b).type = a.type) ∧
    (b.title = none → (updateActivity a b).title = a.title) ∧
    (b.description = none →
      (updateActivity a b).description = a.description) ∧
    (b.location = none → (updateActivity a b).location = a.location) ∧
    (b.cost = none → (updateActivity a b).cost = a.cost) ∧
    (b.currency = none → (updateActivity a b).currency = a.currency) ∧
    (b.images = none → (updateActivity a b).images = a.images) := by
  refine ⟨?_, ?_, rfl, ?_, ?_, ?_, ?_, ?_, ?_, ?_⟩
  · show (match b.dayId with | some v => v | none => a.dayId) = a.dayId
    rw [hnoday]
  · show (match b.startTime with | some v => v | none => a.startTime) =
      some ts
    rw [hst]
  · intro h
    show (match b.type with | some v => v | none => a.type) = a.type
    rw [h]
  · intro h
    show (match b.title with | some v => v | none => a.title) = a.title
    rw [h]
  · intro h
    show (match b.description with | some v => v | none => a.description) =
      a.description
    rw [h]
  · intro h
    show (match b.location with | some v => v | none => a.location) =
      a.location
    rw [h]
  · intro h
    show (match b.cost with
      | some (some c) => if c = 0 then none else some c
      | some none => none
      | none => a.cost) = a.cost
    rw [h]
  · intro h
    show (match b.currency with | some v => v | none => a.currency) =
      a.currency
    rw [h]
  · intro h
    show (match b.images with | some v => v | none => a.images) = a.images
    rw [h]

/-- C7 witness: updating only `startTime` to a timestamp on 2024-03-06
leaves the activity on the 2024-03-05 day and all other fields intact. -/
theorem updateActivity_no_reassign_witness :
    bodyNewTime.dayId = none ∧
    bodyNewTime.startTime = some (some ⟨19788, 540⟩) ∧
    day0305 ∈ [day0305, day0306] ∧ day0305.id = actOnDay0305.dayId ∧
    (⟨19788, 540⟩ : DateTime).date ≠ day0305.date ∧
    ((updateActivity actOnDay0305 bodyNewTime).dayId = actOnDay0305.dayId ∧
    (updateActivity actOnDay0305 bodyNewTime).startTime =
      some ⟨19788, 540⟩ ∧
    (updateActivity actOnDay0305 bodyNewTime).endTime = actOnDay0305.endTime ∧
    (bodyNewTime.type = none →
      (updateActivity actOnDay0305 bodyNewTime).type = actOnDay0305.type) ∧
    (bodyNewTime.title = none →
      (updateActivity actOnDay0305 bodyNewTime).title = actOnDay0305.title) ∧
    (bodyNewTime.description = none →
      (updateActivity actOnDay0305 bodyNewTime).description =
        actOnDay0305.description) ∧
    (bodyNewTime.location = none →
      (updateActivity actOnDay0305 bodyNewTime).location =
        actOnDay0305.location) ∧
    (bodyNewTime.cost = none →
      (updateActivity actOnDay0305 bodyNewTime).cost = actOnDay0305.cost) ∧
    (bodyNewTime.currency = none →
      (updateActivity actOnDay0305 bodyNewTime).currency =
        actOnDay0305.currency) ∧
    (bodyNewTime.images = none →
      (updateActivity actOnDay0305 bodyNewTime).images =
        actOnDay0305.images)) :=
  ⟨rfl, rfl, by decide, rfl, by decide,
    updateActivity_no_reassign actOnDay0305 bodyNewTime [day0305, day0306]
      day0305 ⟨19788, 540⟩ rfl rfl (by decide) rfl (by decide)⟩

/-- C5: `convertCurrency` returns the amount unchanged when source and
target agree or the amount is falsy (a falsy amount returns 0, which is the
amount itself over the rationals); divides by `rates[from]` when the source
has a (truthy) entry — in JS a zero rate is indistinguishable from an absent
one, both hitting the `if (!fromRate)` fallback — and returns the amount
unconverted when the source is absent.  With the fallback table active,
100 USD to EUR gives `100 / 1.08`. -/
theorem convertCurrency_spec (rates : List (String × Rat)) (amount : Rat)
    (f t : String) :
    (f = t → convertCurrency rates amount f t = amount) ∧
    (amount = 0 → convertCurrency rates amount f t = amount) ∧
    (∀ r : Rat, f ≠ t → amount ≠ 0 → lookupRate rates f = some r → r ≠ 0 →
      convertCurrency rates amount f t = amount / r) ∧
    (lookupRate rates f = none → convertCurrency rates amount f t = amount) ∧
    convertCurrency (getFallbackRates "EUR") 100 "USD" "EUR" = 100 / 1.08 := by
  refine ⟨?_, ?_, ?_, ?_, by
    simp [convertCurrency, lookupRate, getFallbackRates, fallbackEUR]
    norm_num⟩
  · intro h
    rw [convertCurrency, if_pos h]
  · intro h
    rw [convertCurrency]
    by_cases heq : f = t
    · rw [if_pos heq]
    · rw [if_neg heq, if_pos h, h]
  · intro r hft h0 hlk hr
    rw [convertCurrency, if_neg hft, if_neg h0, hlk]
    simp only [if_neg hr]
  · intro hlk
    rw [convertCurrency]
    by_cases heq : f = t
    · rw [if_pos heq]
    · rw [if_neg heq]
      by_cases h0 : amount = 0
      · rw [if_pos h0, h0]
      · rw [if_neg h0, hlk]

/-- C5 witness: the USD entry of the EUR fallback table, at amount 100. -/
theorem convertCurrency_spec_witness :
    ("USD" ≠ "EUR" ∧ (100 : Rat) ≠ 0 ∧
      lookupRate (getFallbackRates "EUR") "USD" = some 1.08 ∧
      (1.08 : Rat) ≠ 0) ∧
    convertCurrency (getFallbackRates "EUR") 100 "USD" "EUR" = 100 / 1.08 :=
  ⟨⟨by decide, by norm_num,
      by simp [lookupRate, getFallbackRates, fallbackEUR], by norm_num⟩,
    (convertCurrency_spec (getFallbackRates "EUR") 100 "USD" "EUR").2.2.1
      1.08 (by decide) (by norm_num)
      (by simp [lookupRate, getFallbackRates, fallbackEUR]) (by norm_num)⟩

/-- C9: with a positive budget the tracker renders, its remaining amount is
the budget minus the converted total spent, the over-budget flag holds
exactly when remaining is negative, and the warning flag holds exactly when
not over budget and spending reached at least 80% of the budget.  In
particular budget 1000 with 1200 spent gives remaining -200 and the
over-budget flag, and exactly 800 of 1000 gives the warning flag without the
over-budget flag. -/
theorem budgetTracker_spec (bdg : Rat) (rates : List (String × Rat))
    (activities : List Activity) (hpos : 0 < bdg) :
    (∃ v, budgetTracker (some bdg) rates activities = some v ∧
      v.totalSpent = calculateTotalInCurrency rates activities ∧
      v.remaining = bdg - v.totalSpent ∧
      (v.isOverBudget = true ↔ v.remaining < 0) ∧
      (v.isWarning = true ↔
        ¬v.remaining < 0 ∧ (80 / 100) * bdg ≤ v.totalSpent)) ∧
    (∃ v1, budgetTracker (some 1000) fallbackEUR [actSpend1200] = some v1 ∧
      v1.remaining = -200 ∧ v1.isOverBudget = true ∧ v1.isWarning = false) ∧
    (∃ v2, budgetTracker (some 1000) fallbackEUR [actSpend800] = some v2 ∧
      v2.remaining = 200 ∧ v2.isWarning = true ∧ v2.isOverBudget = false) := by
  refine ⟨?_, ?_, ?_⟩
  · set spent := calculateTotalInCurrency rates activities with hspent
    refine ⟨_, by rw [budgetTracker, if_neg (not_le.mpr hpos)], rfl, rfl,
      ?_, ?_⟩
    · simp
    · simp only [Bool.and_eq_true, Bool.not_eq_true', decide_eq_false_iff_not,
        decide_eq_true_eq]
      refine and_congr_right fun hno => ?_
      have hle : spent ≤ bdg := by
        simpa using not_lt.mp (fun h => hno (by linarith))
      have hcap : spent / bdg * 100 ≤ 100 := by
        have h1 : spent / bdg ≤ 1 := (div_le_one hpos).mpr hle
        linarith
      rw [min_eq_left hcap, div_mul_eq_mul_div, le_div_iff₀ hpos]
      constructor
      · intro h; linarith
      · intro h; linarith
  · refine ⟨_, rfl, ?_, ?_, ?_⟩ <;>
      norm_num [budgetTracker, calculateTotalInCurrency, lookupRate,
        fallbackEUR, actSpend1200]
  · refine ⟨_, rfl, ?_, ?_, ?_⟩ <;>
      norm_num [budgetTracker, calculateTotalInCurrency, lookupRate,
        fallbackEUR, actSpend800]

/-- C9 witness: the tracker at budget 1000 over the fallback table. -/
theorem budgetTracker_spec_witness :
    (0 : Rat) < 1000 ∧
    ((∃ v, budgetTracker (some 1000) fallbackEUR [actSpend800] = some v ∧
      v.totalSpent = calculateTotalInCurrency fallbackEUR [actSpend800] ∧
      v.remaining = 1000 - v.totalSpent ∧
      (v.isOverBudget = true ↔ v.remaining < 0) ∧
      (v.isWarning = true ↔
        ¬v.remaining < 0 ∧ (80 / 100) * 1000 ≤ v.totalSpent)) ∧
    (∃ v1, budgetTracker (some 1000) fallbackEUR [actSpend1200] = some v1 ∧
      v1.remaining = -200 ∧ v1.isOverBudget = true ∧ v1.isWarning = false) ∧
    (∃ v2, budgetTracker (some 1000) fallbackEUR [actSpend800] = some v2 ∧
      v2.remaining = 200 ∧ v2.isWarning = true ∧ v2.isOverBudget = false)) :=
  ⟨by norm_num, budgetTracker_spec 1000 fallbackEUR [actSpend800] (by norm_num)⟩

/-! ### Behaviour of the shared sort -/

theorem insertJS_perm (cmp : α → α → Int) (x : α) :
    ∀ l, List.Perm (insertJS cmp x l) (x :: l) := by
  intro l
  induction l with
  | nil => exact List.Perm.refl _
  | cons y l ih =>
    rw [insertJS]
    by_cases h : cmp x y < 0
    · rw [if_pos h]
    · rw [if_neg h]
      exact (ih.cons y).trans (List.Perm.swap x y l)

theorem sortJS_append_single (cmp : α → α → Int) (l : List α) (x : α) :
    sortJS cmp (l ++ [x]) = insertJS cmp x (sortJS cmp l) := by
  rw [sortJS, sortJS, List.foldl_concat]

theorem sortJS_perm (cmp : α → α → Int) : ∀ l : List α,
    List.Perm (sortJS cmp l) l := by
  intro l
  induction l using List.reverseRecOn with
  | nil => exact List.Perm.refl _
  | append_singleton l x ih =>
    rw [sortJS_append_single]
    exact ((insertJS_perm cmp x (sortJS cmp l)).trans (ih.cons x)).trans
      (List.perm_append_singleton x l).symm

theorem insertJS_append_last (cmp : α → α → Int) (x : α) :
    ∀ l : List α, (∀ y ∈ l, ¬cmp x y < 0) → insertJS cmp x l = l ++ [x] := by
  intro l
  induction l with
  | nil => intro _; rfl
  | cons y l ih =>
    intro h
    rw [insertJS, if_neg (h y (List.mem_cons_self y l)),
      ih (fun z hz => h z (List.mem_cons_of_mem _ hz))]
    rfl

theorem insertJS_append_left (cmp : α → α → Int) (x : α) :
    ∀ (A B : List α), (∀ b ∈ B, cmp x b < 0) →
      insertJS cmp x (A ++ B) = insertJS cmp x A ++ B := by
  intro A
  induction A with
  | nil =>
    intro B hB
    match B with
    | [] => rfl
    | b :: B2 =>
      rw [List.nil_append]
      show (if cmp x b < 0 then x :: b :: B2 else b :: insertJS cmp x B2) =
        [x] ++ b :: B2
      rw [if_pos (hB b (List.mem_cons_self b B2))]
      rfl
  | cons a A2 ih =>
    intro B hB
    rw [List.cons_append, insertJS, insertJS]
    by_cases h : cmp x a < 0
    · rw [if_pos h, if_pos h]
      rfl
    · rw [if_neg h, if_neg h, ih B hB]
      rfl

theorem insertJS_split (cmp : α → α → Int) (x : α) :
    ∀ l : List α, ∃ A B, l = A ++ B ∧ insertJS cmp x l = A ++ x :: B ∧
      (∀ a ∈ A, ¬cmp x a < 0) ∧
      (∀ b, B.head? = some b → cmp x b < 0) := by
  intro l
  induction l with
  | nil =>
    exact ⟨[], [], rfl, rfl, by simp, by simp⟩
  | cons y l ih =>
    by_cases h : cmp x y < 0
    · refine ⟨[], y :: l, rfl, ?_, by simp, ?_⟩
      · rw [insertJS, if_pos h]
        rfl
      · intro b hb
        rw [List.head?_cons, Option.some.injEq] at hb
        rw [← hb]
        exact h
    · obtain ⟨A, B, hAB, hins, hA, hB⟩ := ih
      refine ⟨y :: A, B, by rw [List.cons_append, ← hAB], ?_, ?_, hB⟩
      · show (if cmp x y < 0 then x :: y :: l else y :: insertJS cmp x l) =
          (y :: A) ++ x :: B
        rw [if_neg h, hins]
        rfl
      · intro a ha
        rcases List.mem_cons.mp ha with rfl | ha2
        · exact h
        · exact hA a ha2

theorem actCmp_timed {a b : Activity} (ha : a.startTime.isSome = true)
    (hb : b.startTime.isSome = true) :
    actCmp a b = timedVal a - timedVal b := by
  match has : a.startTime, hbs : b.startTime with
  | none, _ => rw [has] at ha; exact absurd ha (by simp)
  | some ta, none => rw [hbs] at hb; exact absurd hb (by simp)
  | some ta, some tb => rw [actCmp, timedVal, timedVal, has, hbs]

theorem actCmp_untimed_left {a : Activity} (ha : a.startTime = none)
    (b : Activity) : actCmp a b = 1 := by
  rw [actCmp, ha]

theorem actCmp_untimed_right {a b : Activity} (ha : a.startTime.isSome = true)
    (hb : b.startTime = none) : actCmp a b = -1 := by
  match has : a.startTime with
  | none => rw [has] at ha; exact absurd ha (by simp)
  | some ta => rw [actCmp, has, hb]

/-- Normal form of the shared sort: the timed activities come first (sorted
among themselves), followed by the untimed ones in their original order. -/
theorem sortJS_actCmp_split : ∀ l : List Activity,
    sortJS actCmp l =
      sortJS actCmp (l.filter (fun a => a.startTime.isSome)) ++
        l.filter (fun a => a.startTime.isNone) := by
  intro l
  induction l using List.reverseRecOn with
  | nil => rfl
  | append_singleton l x ih =>
    rw [sortJS_append_single, ih, List.filter_append, List.filter_append]
    match hx : x.startTime with
    | none =>
      rw [show List.filter (fun a => a.startTime.isSome) [x] = [] by
          simp [hx],
        show List.filter (fun a => a.startTime.isNone) [x] = [x] by
          simp [hx],
        List.append_nil]
      rw [insertJS_append_last actCmp x _ fun y _ => by
        rw [actCmp_untimed_left hx y]
        decide]
      rw [List.append_assoc]
    | some ts =>
      rw [show List.filter (fun a => a.startTime.isSome) [x] = [x] by
          simp [hx],
        show List.filter (fun a => a.startTime.isNone) [x] = [] by
          simp [hx],
        List.append_nil, sortJS_append_single]
      refine insertJS_append_left actCmp x _ _ fun b hb => ?_
      have hbn : b.startTime = none := by
        have := (List.mem_filter.mp hb).2
        simpa [Option.isNone_iff_eq_none] using this
      rw [actCmp_untimed_right (by rw [hx]; rfl) hbn]
      decide

/-- On all-timed lists the shared sort is an ascending stable sort by
`timedVal`: pairwise nondecreasing, and each equal-time class keeps its
original order. -/
theorem sortJS_timed_props : ∀ l : List Activity,
    (∀ a ∈ l, a.startTime.isSome = true) →
    List.Pairwise (fun a b => timedVal a ≤ timedVal b) (sortJS actCmp l) ∧
    ∀ c : Int, (sortJS actCmp l).filter (fun a => timedVal a == c) =
      l.filter (fun a => timedVal a == c) := by
  intro l
  induction l using List.reverseRecOn with
  | nil => exact fun _ => ⟨List.Pairwise.nil, fun _ => rfl⟩
  | append_singleton l x ih =>
    intro hall
    have hl : ∀ a ∈ l, a.startTime.isSome = true :=
      fun a ha => hall a (List.mem_append_left _ ha)
    have hx : x.startTime.isSome = true := hall x (by simp)
    obtain ⟨hpw, hstab⟩ := ih hl
    have hmemS : ∀ a ∈ sortJS actCmp l, a.startTime.isSome = true :=
      fun a ha => hl a ((sortJS_perm actCmp l).subset ha)
    obtain ⟨A, B, hAB, hins, hA, hB⟩ := insertJS_split actCmp x (sortJS actCmp l)
    have hmemA : ∀ a ∈ A, a ∈ sortJS actCmp l :=
      fun a ha => hAB ▸ List.mem_append_left _ ha
    have hmemB : ∀ b ∈ B, b ∈ sortJS actCmp l :=
      fun b hb => hAB ▸ List.mem_append_right _ hb
    have hAx : ∀ a ∈ A, timedVal a ≤ timedVal x := by
      intro a ha
      have := hA a ha
      rw [actCmp_timed hx (hmemS a (hmemA a ha))] at this
      omega
    have hpwAB : List.Pairwise (fun a b => timedVal a ≤ timedVal b) (A ++ B) := by
      rw [← hAB]
      exact hpw
    have hxB : ∀ b ∈ B, timedVal x < timedVal b := by
      intro b hb
      match B, hb with
      | b0 :: B2, hb =>
        have hhead : timedVal x < timedVal b0 := by
          have := hB b0 rfl
          rw [actCmp_timed hx (hmemS b0 (hmemB b0 (List.mem_cons_self b0 B2)))]
            at this
          omega
        rcases List.mem_cons.mp hb with rfl | hb2
        · exact hhead
        · have hpwB : List.Pairwise (fun a b => timedVal a ≤ timedVal b)
              (b0 :: B2) := (List.pairwise_append.mp hpwAB).2.1
          exact lt_of_lt_of_le hhead ((List.pairwise_cons.mp hpwB).1 b hb2)
    rw [sortJS_append_single, hins]
    constructor
    · rw [List.pairwise_append]
      obtain ⟨hpwA, hpwB, hAB2⟩ := List.pairwise_append.mp hpwAB
      refine ⟨hpwA, ?_, ?_⟩
      · rw [List.pairwise_cons]
        exact ⟨fun b hb => le_of_lt (hxB b hb), hpwB⟩
      · intro a ha b hb
        rcases List.mem_cons.mp hb with rfl | hb2
        · exact hAx a ha
        · exact hAB2 a ha b hb2
    · intro c
      have hfilterAB : A.filter (fun a => timedVal a == c) ++
          B.filter (fun a => timedVal a == c) =
            l.filter (fun a => timedVal a == c) := by
        rw [← List.filter_append, ← hAB]
        exact hstab c
      rw [List.filter_append, List.filter_cons, List.filter_append]
      by_cases hxc : timedVal x = c
      · have hBf : B.filter (fun a => timedVal a == c) = [] := by
          refine List.filter_eq_nil_iff.mpr fun b hb => ?_
          have := hxB b hb
          simp only [beq_iff_eq]
          omega
        rw [if_pos (show (timedVal x == c) = true by simpa using hxc)]
        rw [hBf]
        rw [show List.filter (fun a => timedVal a == c) [x] =
            [x] by simp [hxc]]
        rw [← hfilterAB, hBf, List.append_nil]
      · rw [if_neg (show ¬(timedVal x == c) = true by simpa using hxc)]
        rw [show List.filter (fun a => timedVal a == c) [x] =
            [] by simp [hxc]]
        rw [List.append_nil, hfilterAB]

theorem exportExcelRows_foldl (days : List Day) (acc : List (Day × Activity)) :
    days.foldl
      (fun data d =>
        if d.activities.length = 0 then data
        else data ++ d.activities.map (fun a => (d, a)))
      acc =
    acc ++ ((days.filter (fun d => decide (0 < d.activities.length))).map
      (fun d => d.activities.map (fun a => (d, a)))).flatten := by
  induction days generalizing acc with
  | nil => simp
  | cons d days ih =>
    rw [List.foldl_cons, List.filter_cons]
    by_cases h : d.activities.length = 0
    · rw [if_pos h, show decide (0 < d.activities.length) = false by
        simp [h], ih]
      simp
    · rw [if_neg h, show decide (0 < d.activities.length) = true by
        simp [Nat.pos_of_ne_zero h], ih]
      simp [List.append_assoc]

theorem exportExcelRows_eq (t : Trip) :
    exportExcelRows t =
      ((t.days.filter (fun d => decide (0 < d.activities.length))).map
        (fun d => d.activities.map (fun a => (d, a)))).flatten := by
  rw [exportExcelRows, exportExcelRows_foldl]
  rfl

theorem exportICSEvents_foldl (days : List Day) (acc : List (Day × Activity)) :
    days.foldl (fun evs d => evs ++ d.activities.map (fun a => (d, a))) acc =
      acc ++ (days.map (fun d => d.activities.map (fun a => (d, a)))).flatten := by
  induction days generalizing acc with
  | nil => simp
  | cons d days ih =>
    rw [List.foldl_cons, ih]
    simp [List.append_assoc]

theorem exportICSEvents_eq (t : Trip) :
    exportICSEvents t =
      (t.days.map (fun d => d.activities.map (fun a => (d, a)))).flatten := by
  rw [exportICSEvents, exportICSEvents_foldl]
  rfl

/-- C8 (amended): the text, PDF and Markdown formatters share the common
preprocessing — omit days with zero activities, sort each day's activities
ascending by `startTime` with untimed ones last in original order and ties
in original order.  The spreadsheet formatter omits empty days but leaves
each day's activities in stored order, and the JSON and calendar formatters
neither omit empty days nor sort. -/
theorem exportFormatters_preprocessing (t : Trip) :
    (exportPDFItems t = exportTextItems t ∧
      exportMarkdownItems t = exportTextItems t) ∧
    ((exportTextItems t).map Prod.fst =
      t.days.filter (fun d => decide (0 < d.activities.length))) ∧
    (∀ p ∈ exportTextItems t,
      0 < p.1.activities.length ∧
      List.Perm p.2 p.1.activities ∧
      ∃ T, p.2 = T ++ p.1.activities.filter (fun a => a.startTime.isNone) ∧
        List.Perm T (p.1.activities.filter (fun a => a.startTime.isSome)) ∧
        List.Pairwise (fun a b => timedVal a ≤ timedVal b) T ∧
        ∀ c : Int, T.filter (fun a => timedVal a == c) =
          (p.1.activities.filter (fun a => a.startTime.isSome)).filter
            (fun a => timedVal a == c)) ∧
    (exportExcelRows t =
      ((t.days.filter (fun d => decide (0 < d.activities.length))).map
        (fun d => d.activities.map (fun a => (d, a)))).flatten) ∧
    ((exportJSON t).days.map
        (fun ed => (ed.date, ed.activities.map (fun a => a.title))) =
      t.days.map (fun d => (d.date, d.activities.map (fun a => a.title)))) ∧
    (exportICSEvents t =
      (t.days.map (fun d => d.activities.map (fun a => (d, a)))).flatten) := by
  refine ⟨⟨rfl, rfl⟩, ?_, ?_, exportExcelRows_eq t, ?_, exportICSEvents_eq t⟩
  · rw [exportTextItems, List.map_map]
    exact List.map_id _
  · intro p hp
    obtain ⟨d, hd, hpd⟩ := List.mem_map.mp hp
    subst hpd
    have hlen : 0 < d.activities.length := by
      have := (List.mem_filter.mp hd).2
      simpa using this
    refine ⟨hlen, sortJS_perm actCmp d.activities, ?_⟩
    refine ⟨sortJS actCmp (d.activities.filter (fun a => a.startTime.isSome)),
      sortJS_actCmp_split d.activities, ?_, ?_, ?_⟩
    · exact sortJS_perm actCmp _
    · exact (sortJS_timed_props _ fun a ha => (List.mem_filter.mp ha).2).1
    · exact (sortJS_timed_props _ fun a ha => (List.mem_filter.mp ha).2).2
  · rw [exportJSON]
    simp only [List.map_map]
    refine List.map_congr_left fun d _ => ?_
    simp only [Function.comp_apply, List.map_map]
    rfl

/-- C8 counterexample: the spreadsheet formatter emits the 10:00 activity
before the 09:00 one (stored order, not sorted ascending), and the JSON
formatter keeps a day with zero activities — so not every formatter applies
the common preprocessing. -/
theorem exportFormatters_preprocessing_cex :
    (exportExcelRows tripC8).map (fun p => (p.2.title, p.2.startTime)) =
      [("Museum", some ⟨100, 600⟩), ("Breakfast", some ⟨100, 540⟩)] ∧
    (exportJSON tripC8).days.map (fun ed => (ed.date, ed.activities.length)) =
      [(99, 0), (100, 2)] := by
  constructor
  · decide
  · decide

/-- C8 witness: the amended statement applied to the concrete trip, at the
day whose stored order is unsorted. -/
theorem exportFormatters_preprocessing_witness :
    ((dayUnsorted, sortJS actCmp dayUnsorted.activities) ∈
      exportTextItems tripC8) ∧
    (0 < (dayUnsorted, sortJS actCmp dayUnsorted.activities).1.activities.length ∧
    List.Perm (dayUnsorted, sortJS actCmp dayUnsorted.activities).2
      (dayUnsorted, sortJS actCmp dayUnsorted.activities).1.activities ∧
    ∃ T, (dayUnsorted, sortJS actCmp dayUnsorted.activities).2 =
        T ++ (dayUnsorted, sortJS actCmp
          dayUnsorted.activities).1.activities.filter
          (fun a => a.startTime.isNone) ∧
      List.Perm T ((dayUnsorted, sortJS actCmp
          dayUnsorted.activities).1.activities.filter
          (fun a => a.startTime.isSome)) ∧
      List.Pairwise (fun a b => timedVal a ≤ timedVal b) T ∧
      ∀ c : Int, T.filter (fun a => timedVal a == c) =
        ((dayUnsorted, sortJS actCmp
            dayUnsorted.activities).1.activities.filter
            (fun a => a.startTime.isSome)).filter
          (fun a => timedVal a == c)) :=
  ⟨by decide,
    (exportFormatters_preprocessing tripC8).2.2.1
      (dayUnsorted, sortJS actCmp dayUnsorted.activities) (by decide)⟩

theorem createActivity_no_startTime (days : List Day)
    (b : CreateActivityBody) (h : b.startTime = none) :
    createActivity days b = createActivity [] b := by
  have hassign : ∀ ds : List Day, assignDay ds b.dayId b.startTime = b.dayId :=
    fun ds => by rw [h]; rfl
  rw [createActivity, createActivity, hassign days, hassign []]

theorem runImport_fold (did : Nat) :
    ∀ (bodies : List CreateActivityBody) (tr : Trip),
      (∀ b ∈ bodies, b.startTime = none ∧ b.dayId = did) →
      (bodies.foldl
          (fun tr b => applyCreate tr (createActivity tr.days b)) tr).days =
        tr.days.map (fun d =>
          if d.id = did then
            { d with activities := d.activities ++
                bodies.map (fun b => createActivity [] b) }
          else d) := by
  intro bodies
  induction bodies with
  | nil =>
    intro tr _
    have hid : ∀ d : Day,
        (if d.id = did then
          { d with activities := d.activities ++ List.map (fun b => createActivity [] b) [] }
         else d) = d := by
      intro d
      by_cases h : d.id = did
      · rw [if_pos h, List.map_nil, List.append_nil]
      · rw [if_neg h]
    rw [List.foldl_nil, List.map_congr_left fun d _ => hid d]
    simp
  | cons b rest ih =>
    intro tr hall
    obtain ⟨hst, hdid⟩ := hall b (List.mem_cons_self b rest)
    have hA : createActivity tr.days b = createActivity [] b :=
      createActivity_no_startTime tr.days b hst
    have hAday : (createActivity [] b).dayId = did := by
      rw [show (createActivity [] b).dayId = assignDay [] b.dayId b.startTime
          from rfl, hst]
      exact hdid
    rw [List.foldl_cons,
      ih (applyCreate tr (createActivity tr.days b))
        (fun x hx => hall x (List.mem_cons_of_mem _ hx))]
    rw [hA, applyCreate, List.map_map]
    refine List.map_congr_left fun d _ => ?_
    by_cases h : d.id = did
    · simp only [Function.comp_apply, hAday, if_pos h]
      rw [List.map_cons, List.append_assoc, List.singleton_append]
    · simp only [Function.comp_apply, hAday, if_neg h]

theorem importBodiesJSON_fields (doc : ExportDoc) (did : Nat) :
    ∀ b ∈ importBodiesJSON doc did, b.startTime = none ∧ b.dayId = did := by
  intro b hb
  obtain ⟨act, _, hbe⟩ := List.mem_map.mp hb
  rw [← hbe]
  exact ⟨rfl, rfl⟩

/-- C4 (amended): re-importing a trip's JSON export creates one activity per
exported activity, in flattened export order, preserving title, type and
cost (for nonempty titles/types and costs other than an explicit 0) — but
every created activity is attached to the selected day (or the trip's first
day), carries no `startTime`, and the assignment rule therefore never runs:
the per-day placement of the original trip is not reproduced. -/
theorem exportImport_roundtrip_amended (t0 t1 : Trip) (sel : Option Nat)
    (did : Nat)
    (hdid : importTargetDayId t1 sel = some did)
    (hacts : ∀ d ∈ t0.days, ∀ a ∈ d.activities,
      a.title ≠ "" ∧ a.type ≠ "" ∧ a.cost ≠ some 0) :
    ((runImport t1 sel (exportJSON t0)).days =
      t1.days.map (fun d =>
        if d.id = did then
          { d with activities :=
              d.activities ++ importedActivities (exportJSON t0) did }
        else d)) ∧
    ((importBodiesJSON (exportJSON t0) did).map
        (fun b => ((createActivity [] b).title, (createActivity [] b).type,
          (createActivity [] b).cost)) =
      (t0.days.flatMap (fun d => d.activities)).map
        (fun a => (a.title, a.type, a.cost))) ∧
    (∀ b ∈ importBodiesJSON (exportJSON t0) did,
      (createActivity [] b).dayId = did ∧
      (createActivity [] b).startTime = none) := by
  refine ⟨?_, ?_, ?_⟩
  · rw [show runImport t1 sel (exportJSON t0) =
        (importBodiesJSON (exportJSON t0) did).foldl
          (fun tr b => applyCreate tr (createActivity tr.days b)) t1 by
      rw [runImport, hdid]]
    exact runImport_fold did _ t1 (importBodiesJSON_fields _ did)
  · rw [importBodiesJSON, List.map_map]
    rw [show (exportJSON t0).days.flatMap (fun d => d.activities) =
        (t0.days.flatMap (fun d => d.activities)).map (fun a =>
          ({ title := a.title, type := a.type, description := a.description,
             location := a.location, startTime := a.startTime, cost := a.cost,
             currency := a.currency } : ExportedActivity)) by
      rw [exportJSON]
      rw [List.flatMap_map, List.map_flatMap]]
    rw [List.map_map]
    refine List.map_congr_left fun a ha => ?_
    obtain ⟨d, hd, ha2⟩ := List.mem_flatMap.mp ha
    obtain ⟨htitle, htype, hcost⟩ := hacts d hd a ha2
    simp only [Function.comp_apply]
    rw [show ∀ b : CreateActivityBody, (createActivity [] b).title = b.title
      from fun b => rfl]
    rw [show ∀ b : CreateActivityBody, (createActivity [] b).type = b.type
      from fun b => rfl]
    simp only [if_neg htitle, if_neg htype]
    congr 1
    congr 1
    show (match (some (a.cost.getD 0) : Option Rat) with
      | some c => if c = 0 then none else some c
      | none => none) = a.cost
    match hc : a.cost with
    | none => simp
    | some c =>
      have : c ≠ 0 := fun h => hcost (by rw [hc, h])
      simp [this]
  · intro b hb
    obtain ⟨hst, hdid2⟩ := importBodiesJSON_fields (exportJSON t0) did b hb
    constructor
    · rw [show (createActivity [] b).dayId = assignDay [] b.dayId b.startTime
        from rfl, hst]
      exact hdid2
    · rw [show (createActivity [] b).startTime = b.startTime from rfl, hst]

/-- C4 counterexample: exporting a trip whose only activity sits on its
second day and re-importing into an identical empty-day trip puts the
activity on the first day — the per-day activity sets are not reproduced. -/
theorem exportImport_roundtrip_cex :
    (runImport tripC4dst none (exportJSON tripC4src)).days.map
        (fun d => (d.date, d.activities.map (fun a => a.title))) =
      [(50, ["Dinner"]), (51, [])] ∧
    tripC4src.days.map
        (fun d => (d.date, d.activities.map (fun a => a.title))) =
      [(50, []), (51, ["Dinner"])] := by
  constructor
  · decide
  · decide

/-- C4 witness: the amended statement at the concrete source and target
trips, importing into the first day. -/
theorem exportImport_roundtrip_amended_witness :
    importTargetDayId tripC4dst none = some 7 ∧
    (∀ d ∈ tripC4src.days, ∀ a ∈ d.activities,
      a.title ≠ "" ∧ a.type ≠ "" ∧ a.cost ≠ some 0) ∧
    (((runImport tripC4dst none (exportJSON tripC4src)).days =
      tripC4dst.days.map (fun d =>
        if d.id = 7 then
          { d with activities :=
              d.activities ++ importedActivities (exportJSON tripC4src) 7 }
        else d)) ∧
    ((importBodiesJSON (exportJSON tripC4src) 7).map
        (fun b => ((createActivity [] b).title, (createActivity [] b).type,
          (createActivity [] b).cost)) =
      (tripC4src.days.flatMap (fun d => d.activities)).map
        (fun a => (a.title, a.type, a.cost))) ∧
    (∀ b ∈ importBodiesJSON (exportJSON tripC4src) 7,
      (createActivity [] b).dayId = 7 ∧
      (createActivity [] b).startTime = none)) :=
  ⟨rfl, by decide,
    exportImport_roundtrip_amended tripC4src tripC4dst none 7 rfl (by decide)⟩

end TravelPlanner

